import Mathlib

/-!
Shallow embedding of the Plannerly budget engine and conversation state
machine. JavaScript numbers are modelled as rationals (ℚ) with the ideal
real-number semantics of the arithmetic in the source; `Math.round` is
modelled as rounding half toward positive infinity. JavaScript objects
with string keys are modelled as insertion-ordered association lists
(`List (String × ℚ)`): property writes update the existing entry in place
or append a fresh entry at the end, exactly as `for ... in` iteration
order behaves for the non-numeric keys used by this code base.
-/

namespace Plannerly

/-- JS `Math.round`: rounds to the nearest integer, halves toward +∞. -/
def jsRound (q : ℚ) : ℚ := (⌊q + 1/2⌋ : ℤ)

/-- A budget category name (a JS string key). -/
abbrev Category := String

/-- A JS object mapping category names to numbers, in insertion order. -/
abbrev BudgetAllocation := List (Category × ℚ)

/-- First value stored under key `c` (JS property read). -/
def lookup? : BudgetAllocation → Category → Option ℚ
  | [], _ => none
  | (k, v) :: rest, c => if k = c then some v else lookup? rest c

/-- JS read with a default: models `obj[c] ?? d`. -/
def lookupD (a : BudgetAllocation) (c : Category) (d : ℚ) : ℚ :=
  (lookup? a c).getD d

/-- JS property write `obj[c] = v`: updates the entry in place when the key
is present, otherwise appends the new entry at the end. -/
def setVal (a : BudgetAllocation) (c : Category) (v : ℚ) : BudgetAllocation :=
  if (lookup? a c).isSome then
    a.map (fun p => if p.1 = c then (c, v) else p)
  else
    a ++ [(c, v)]

/-- The keys of an allocation, in iteration order. -/
def keysOf (a : BudgetAllocation) : List Category := a.map Prod.fst

/-! ### Conversation state machine (conversation-state module) -/

/-- The `ConversationState` enum of the dialog flow. -/
inductive ConversationState where
  | INITIAL
  | EVENT_TYPE
  | SCOPE
  | BUDGET
  | LOCATION
  | DATE
  | STYLE
  | PLANNING
  deriving DecidableEq, Repr, Fintype

/-- Ordered array of states excluding INITIAL, from the source. -/
def orderedStates : List ConversationState :=
  [ConversationState.EVENT_TYPE, ConversationState.SCOPE,
   ConversationState.BUDGET, ConversationState.LOCATION,
   ConversationState.DATE, ConversationState.STYLE,
   ConversationState.PLANNING]

/-- `getNextState` from the source: `indexOf` yields −1 (here `none`) for a
state not in the ordered array; that case and the last index both return
PLANNING, otherwise the following element is returned. -/
def getNextState (current : ConversationState) : ConversationState :=
  match orderedStates.indexOf? current with
  | none => ConversationState.PLANNING
  | some idx =>
    if idx = orderedStates.length - 1 then ConversationState.PLANNING
    else orderedStates.getD (idx + 1) ConversationState.PLANNING

/-! ### Budget engine (budget module) -/

/-- A vendor selection: a category plus an optional price
(`price?: number`); an absent price means "not yet priced". -/
structure VendorSelection where
  category : Category
  price : Option ℚ
  deriving DecidableEq, Repr

/-- Default allocation templates by event type, from the source. -/
def templates : List (String × BudgetAllocation) :=
  [("wedding",
    [("venue", 0.30), ("catering", 0.25), ("photography", 0.12),
     ("flowers", 0.08), ("music", 0.07), ("misc", 0.18)]),
   ("birthday",
    [("venue", 0.20), ("catering", 0.30), ("entertainment", 0.20),
     ("decor", 0.10), ("misc", 0.20)])]

/-- Template lookup `templates[eventType] || {}` from the source. -/
def templateFor (eventType : String) : BudgetAllocation :=
  match templates.lookup eventType with
  | some t => t
  | none => []

/-- `allocateBudget` from the source: each template category is assigned
`Math.round(fraction * totalBudget)`. -/
def allocateBudget (totalBudget : ℚ) (eventType : String) : BudgetAllocation :=
  (templateFor eventType).map (fun p => (p.1, jsRound (p.2 * totalBudget)))

/-- `spentAmount` from the source: sum of prices with `?? 0` for missing. -/
def spentAmount (selectedVendors : List VendorSelection) : ℚ :=
  selectedVendors.foldl (fun sum v => sum + (v.price.getD 0)) 0

/-- One iteration of the subtraction loop in `reallocateBudget`: the guard
`vendor.category && vendor.price !== undefined` skips selections whose
category is the (falsy) empty string or whose price is undefined. -/
def subtractStep (a : BudgetAllocation) (v : VendorSelection) : BudgetAllocation :=
  match v.price with
  | none => a
  | some p =>
    if v.category = "" then a
    else setVal a v.category (lookupD a v.category 0 - p)

/-- The subtraction loop of `reallocateBudget` over all selections. -/
def subtractSpent (cur : BudgetAllocation) (sels : List VendorSelection) : BudgetAllocation :=
  sels.foldl subtractStep cur

/-- The categories collected by the `remainingCategories` loop: those whose
value after subtraction is strictly positive, in iteration order. -/
def remainingCategories (a : BudgetAllocation) : List Category :=
  (a.filter (fun p => 0 < p.2)).map Prod.fst

/-- The `remainingBudget` accumulator: the sum of values of the
strictly-positive categories. -/
def remainingBudgetOf (a : BudgetAllocation) : ℚ :=
  ((a.filter (fun p => 0 < p.2)).map Prod.snd).sum

/-- The proportional-adjustment loop of `reallocateBudget`: each remaining
category is set to `Math.round(value / remainingBudget * available)`. -/
def redistribute (a : BudgetAllocation) (cats : List Category)
    (remainingBudget available : ℚ) : BudgetAllocation :=
  cats.foldl
    (fun acc c => setVal acc c (jsRound (lookupD acc c 0 / remainingBudget * available)))
    a

/-- `reallocateBudget` from the source: copy, subtract selected prices,
collect positive categories, and redistribute the unspent part of the
total budget across them proportionally when both are positive. -/
def reallocateBudget (currentAllocations : BudgetAllocation)
    (selectedVendors : List VendorSelection) (totalBudget : ℚ) : BudgetAllocation :=
  let newAllocations := subtractSpent currentAllocations selectedVendors
  let remainingBudget := remainingBudgetOf newAllocations
  let spent := spentAmount selectedVendors
  if 0 < remainingBudget ∧ 0 < totalBudget - spent then
    redistribute newAllocations (remainingCategories newAllocations)
      remainingBudget (totalBudget - spent)
  else
    newAllocations

/-- Decimal rendering of a nonnegative integer `n` of cents as `d.dd`. -/
def centsRender (n : ℕ) : String :=
  toString (n / 100) ++ "." ++ (if n % 100 < 10 then "0" else "") ++ toString (n % 100)

/-- JS `Number.prototype.toFixed(2)`: rounds to two decimals (ties toward
the larger magnitude after the sign is split off) and always prints two
fraction digits. -/
def toFixed2 (q : ℚ) : String :=
  if q < 0 then "-" ++ centsRender (⌊-q * 100 + 1/2⌋).toNat
  else centsRender (⌊q * 100 + 1/2⌋).toNat

/-- JS `Number.prototype.toFixed(0)`: rounds to an integer (ties toward
the larger magnitude after the sign is split off). -/
def toFixed0 (q : ℚ) : String :=
  if q < 0 then "-" ++ toString (⌊-q + 1/2⌋).toNat
  else toString (⌊q + 1/2⌋).toNat

/-- The per-category aggregation object `spentPerCategory` built by
`getOverageWarnings` (no truthiness check on the category here). -/
def spentPerCategoryOf (sels : List VendorSelection) : BudgetAllocation :=
  sels.foldl (fun m v => setVal m v.category (lookupD m v.category 0 + v.price.getD 0)) []

/-- The warning string pushed by `getOverageWarnings`. -/
def overMsg (category : Category) (overBy : ℚ) : String :=
  category ++ " is over budget by $" ++ toFixed2 overBy

/-- `getOverageWarnings` from the source: aggregate spend per category,
then warn for every aggregated category whose spend exceeds its
allocation (`allocation[category] ?? 0`). -/
def getOverageWarnings (allocation : BudgetAllocation)
    (selectedVendors : List VendorSelection) : List String :=
  (spentPerCategoryOf selectedVendors).foldl
    (fun warnings p =>
      if lookupD allocation p.1 0 < p.2 then
        warnings ++ [overMsg p.1 (p.2 - lookupD allocation p.1 0)]
      else warnings)
    []

/-- Spend aggregated over the selections of one category (price `?? 0`),
used by `getBudgetRecommendations` via `filter` + `reduce`. -/
def catSpend (sels : List VendorSelection) (c : Category) : ℚ :=
  (sels.filter (fun v => v.category = c)).foldl (fun sum v => sum + v.price.getD 0) 0

/-- The under-investment message of `getBudgetRecommendations`. -/
def investMsg (category : Category) : String :=
  "Consider investing more in " ++ category ++ "."

/-- The nearing-the-limit message of `getBudgetRecommendations`. -/
def nearLimitMsg : String :=
  "You are nearing your budget limit. Look for more cost‑effective options."

/-- The room-to-splurge message of `getBudgetRecommendations`. -/
def splurgeRoomMsg : String :=
  "You have room in your budget. You might consider splurging on must‑have items."

/-- The comparison `remaining / totalBudget < 0.1` under JS semantics.
When `totalBudget = 0` the quotient is `-Infinity`, `NaN` or `+Infinity`
as `remaining` is negative, zero or positive, and only `-Infinity` is
below `0.1`; otherwise it is the exact rational comparison. -/
def nearingLimit (remaining totalBudget : ℚ) : Prop :=
  if totalBudget = 0 then remaining < 0 else remaining / totalBudget < 0.1

instance (remaining totalBudget : ℚ) : Decidable (nearingLimit remaining totalBudget) := by
  unfold nearingLimit; infer_instance

/-- `getBudgetRecommendations` from the source: one "invest more" message
per under-invested template category (guarded by `allocated > 0`), then
exactly one of the nearing-limit / room-to-splurge messages. -/
def getBudgetRecommendations (totalBudget : ℚ)
    (selectedVendors : List VendorSelection) (eventType : String) : List String :=
  let spent := spentAmount selectedVendors
  let remaining := totalBudget - spent
  let template := templateFor eventType
  let recs := template.foldl
    (fun rs p =>
      let allocated := p.2 * totalBudget
      if 0 < allocated ∧ catSpend selectedVendors p.1 / allocated < 0.5 then
        rs ++ [investMsg p.1]
      else rs)
    []
  if nearingLimit remaining totalBudget then recs ++ [nearLimitMsg]
  else recs ++ [splurgeRoomMsg]

/-- Modelled from the spec: the amount one selection contributes to the
subtraction step of `reallocate` for category `c` — its price when the
selection has category `c`, a known (nonempty) category and a defined
price, else nothing. -/
def subAmt (c : Category) (v : VendorSelection) : ℚ :=
  match v.price with
  | none => 0
  | some p => if v.category = c ∧ c ≠ "" then p else 0

/-- Modelled from the spec: the total amount subtracted from category `c`
by step 2 of the `reallocate` algorithm. -/
def catSubSpend (sels : List VendorSelection) (c : Category) : ℚ :=
  (sels.map (subAmt c)).sum

/-- Modelled from the spec: total spend aggregated for category `c` over
all selections (missing price counted as 0), as `overageWarnings`
describes it. -/
def catAllSpend (sels : List VendorSelection) (c : Category) : ℚ :=
  (sels.map (fun v => if v.category = c then v.price.getD 0 else 0)).sum

/-! ### Priority-driven recommender (budget-recommender module) -/

namespace Recommender

/-- A vendor selection of the recommender module: here the price is a
required field, and `essential` is optional and unused. -/
structure VendorSelection where
  category : Category
  price : ℚ
  essential : Option Bool := none
  deriving DecidableEq, Repr

/-- User preferences: per-category priority weights plus a total budget. -/
structure UserPreferences where
  categoryPriorities : List (Category × ℚ)
  totalBudget : ℚ
  deriving DecidableEq, Repr

/-- The `spentByCategory` aggregation object (`|| 0` on the read, which
coincides with a zero default on rational values). -/
def spentByCategoryOf (selections : List VendorSelection) : BudgetAllocation :=
  selections.foldl (fun m s => setVal m s.category (lookupD m s.category 0 + s.price)) []

/-- `Object.values(m).reduce((a, b) => a + b, 0)`. -/
def totalOf (m : BudgetAllocation) : ℚ := (m.map Prod.snd).sum

/-- The over-budget opening message (the argument is `Math.abs(remaining)`). -/
def overBudgetMsg (amount : ℚ) : String :=
  "You are currently over budget by $" ++ toFixed0 amount ++
    ". Consider scaling back on non‑essential categories or negotiating lower rates."

/-- The remaining-budget opening message. -/
def remainingMsg (amount : ℚ) : String :=
  "You have $" ++ toFixed0 amount ++
    " remaining in your budget. Consider investing more in high priority categories or adding nice‑to‑have elements."

/-- The enhance-category message. -/
def enhanceMsg (category : Category) : String :=
  "You still have room to enhance your " ++ category ++
    " – consider allocating more budget here to better reflect your preferences."

/-- The trim-category message. -/
def trimMsg (category : Category) : String :=
  "You are spending a lot on " ++ category ++
    ". To stay on track, consider choosing a more affordable option or trimming extras in this category."

/-- The closing splurge message. -/
def splurgeTopMsg (topPriority : String) : String :=
  "With budget left over, you could splurge on your top priority: " ++ topPriority ++
    ". Look for premium options or added services in this category."

/-- The closing economize message. -/
def economizeMsg (lowestPriority : String) : String :=
  "Since funds are tight, focus on essentials and look for savings in lower priority areas like " ++
    lowestPriority ++ "."

/-- The category keys sorted by the comparator
`(categoryPriorities[b] || 0) - (categoryPriorities[a] || 0)`: descending
priority, stable on ties (JS `Array.prototype.sort` is stable; a stable
sort output is determined by the comparator, so any stable sorting
algorithm is a faithful model — here insertion sort). -/
def sortedCategories (cp : BudgetAllocation) : List Category :=
  (cp.map Prod.fst).insertionSort (fun a b => lookupD cp b 0 ≤ lookupD cp a 0)

/-- The comparison `spent > expectedAmount * 1.2` where `expectedAmount =
priority / totalW * totalBudget`, under JS semantics. When `totalW = 0`
the quotient is `±Infinity` or `NaN`; after multiplying by the budget and
`1.2`, the comparison holds exactly when the product is `-Infinity`,
i.e. when `priority` and `totalBudget` are nonzero with opposite signs. -/
def trimCondition (spent priority totalW totalBudget : ℚ) : Prop :=
  if totalW = 0 then (0 < priority ∧ totalBudget < 0) ∨ (priority < 0 ∧ 0 < totalBudget)
  else priority / totalW * totalBudget * 1.2 < spent

instance (spent priority totalW totalBudget : ℚ) :
    Decidable (trimCondition spent priority totalW totalBudget) := by
  unfold trimCondition; infer_instance

/-- One iteration of the per-category `forEach` loop: an enhance message
when the priority is positive, money remains and spend is below
`0.5 * priority * totalBudget`, then a trim message when the spend
exceeds 120% of the expected amount. -/
def categoryStep (spentBy cp : BudgetAllocation) (remaining totalBudget totalW : ℚ)
    (rs : List String) (category : Category) : List String :=
  let spent := lookupD spentBy category 0
  let priority := lookupD cp category 0
  let rs1 :=
    if 0 < priority ∧ 0 < remaining ∧ spent < 0.5 * priority * totalBudget then
      rs ++ [enhanceMsg category]
    else rs
  if trimCondition spent priority totalW totalBudget then rs1 ++ [trimMsg category]
  else rs1

/-- `generateBudgetRecommendations` from the source: an opening over/under
budget message when the remainder is nonzero, per-category suggestions in
descending priority order, and a closing splurge/economize message naming
the first/last sorted category (`undefined` rendered when there are no
priority categories, as JS string interpolation does). -/
def generateBudgetRecommendations (selections : List VendorSelection)
    (prefs : UserPreferences) : List String :=
  let cp := prefs.categoryPriorities
  let totalBudget := prefs.totalBudget
  let spentBy := spentByCategoryOf selections
  let remaining := totalBudget - totalOf spentBy
  let recs0 : List String :=
    if remaining < 0 then [overBudgetMsg (-remaining)]
    else if 0 < remaining then [remainingMsg remaining]
    else []
  let categories := sortedCategories cp
  let totalW := totalOf cp
  let recs := categories.foldl (categoryStep spentBy cp remaining totalBudget totalW) recs0
  if 0 < remaining then recs ++ [splurgeTopMsg (categories.headD "undefined")]
  else recs ++ [economizeMsg (categories.getLastD "undefined")]

/-- Modelled from the spec: the remaining budget after all selections. -/
def remainingOf (selections : List VendorSelection) (prefs : UserPreferences) : ℚ :=
  prefs.totalBudget - totalOf (spentByCategoryOf selections)

/-- Modelled from the spec: the opening over/under budget report in
absolute dollars (empty when the budget is hit exactly). -/
def specOpeningMsgs (selections : List VendorSelection) (prefs : UserPreferences) : List String :=
  if remainingOf selections prefs < 0 then [overBudgetMsg (-remainingOf selections prefs)]
  else if 0 < remainingOf selections prefs then [remainingMsg (remainingOf selections prefs)]
  else []

/-- Modelled from the spec (as amended): the per-category suggestions —
an enhance message exactly when the priority is positive, money remains
and spend is below 50% of `priority × totalBudget`, then a trim message
exactly when spend exceeds 120% of the priority-weighted expected share
(JS division semantics when the priority weights sum to 0). -/
def specCategoryMsgs (selections : List VendorSelection) (prefs : UserPreferences)
    (c : Category) : List String :=
  (if 0 < lookupD prefs.categoryPriorities c 0 ∧ 0 < remainingOf selections prefs ∧
      lookupD (spentByCategoryOf selections) c 0 <
        0.5 * lookupD prefs.categoryPriorities c 0 * prefs.totalBudget
   then [enhanceMsg c] else [])
  ++ (if trimCondition (lookupD (spentByCategoryOf selections) c 0)
        (lookupD prefs.categoryPriorities c 0) (totalOf prefs.categoryPriorities)
        prefs.totalBudget
      then [trimMsg c] else [])

/-- Modelled from the spec: the closing suggestion — splurge on the
highest-priority category when money remains, economize on the
lowest-priority one when not. -/
def specClosingMsg (selections : List VendorSelection) (prefs : UserPreferences) : String :=
  if 0 < remainingOf selections prefs then
    splurgeTopMsg ((sortedCategories prefs.categoryPriorities).headD "undefined")
  else economizeMsg ((sortedCategories prefs.categoryPriorities).getLastD "undefined")

end Recommender

/-! ### Lemmas on the JS-object model -/

theorem lookup?_append (a b : BudgetAllocation) (c : Category) :
    lookup? (a ++ b) c = match lookup? a c with
      | some v => some v
      | none => lookup? b c := by
  induction a with
  | nil => simp [lookup?]
  | cons p rest ih =>
    obtain ⟨k, w⟩ := p
    by_cases hk : k = c <;> simp [lookup?, hk, ih]

theorem lookup?_mapUpd_self (a : BudgetAllocation) (c : Category) (v : ℚ)
    (h : (lookup? a c).isSome) :
    lookup? (a.map (fun p => if p.1 = c then (c, v) else p)) c = some v := by
  induction a with
  | nil => simp [lookup?] at h
  | cons p rest ih =>
    obtain ⟨k, w⟩ := p
    by_cases hk : k = c
    · subst hk
      show lookup? ((if k = k then ((k, v) : Category × ℚ) else (k, w)) ::
        List.map (fun p => if p.1 = k then (k, v) else p) rest) k = some v
      rw [if_pos rfl]
      simp [lookup?]
    · show lookup? ((if k = c then ((c, v) : Category × ℚ) else (k, w)) ::
        List.map (fun p => if p.1 = c then (c, v) else p) rest) c = some v
      rw [if_neg hk]
      simp only [lookup?, if_neg hk] at h ⊢
      exact ih h

theorem lookup?_mapUpd_ne (a : BudgetAllocation) (c : Category) (v : ℚ)
    (c' : Category) (h : c' ≠ c) :
    lookup? (a.map (fun p => if p.1 = c then (c, v) else p)) c' = lookup? a c' := by
  induction a with
  | nil => simp [lookup?]
  | cons p rest ih =>
    obtain ⟨k, w⟩ := p
    show lookup? ((if k = c then ((c, v) : Category × ℚ) else (k, w)) ::
      List.map (fun p => if p.1 = c then (c, v) else p) rest) c' = lookup? ((k, w) :: rest) c'
    by_cases hk : k = c
    · subst hk
      have hkc : k ≠ c' := fun hh => h hh.symm
      rw [if_pos rfl]
      simp only [lookup?, if_neg hkc, ih]
    · rw [if_neg hk]
      by_cases hk' : k = c'
      · subst hk'
        simp [lookup?]
      · simp [lookup?, hk', ih]

theorem lookup?_setVal_self (a : BudgetAllocation) (c : Category) (v : ℚ) :
    lookup? (setVal a c v) c = some v := by
  unfold setVal
  split
  · exact lookup?_mapUpd_self a c v (by assumption)
  · rename_i h
    rw [lookup?_append]
    have hnone : lookup? a c = none := by
      cases hh : lookup? a c
      · rfl
      · exact absurd (by simp [hh]) h
    simp [hnone, lookup?]

theorem lookup?_setVal_ne (a : BudgetAllocation) (c : Category) (v : ℚ)
    (c' : Category) (h : c' ≠ c) :
    lookup? (setVal a c v) c' = lookup? a c' := by
  unfold setVal
  split
  · exact lookup?_mapUpd_ne a c v c' h
  · rw [lookup?_append]
    cases hh : lookup? a c'
    · have : c ≠ c' := fun hc => h hc.symm
      simp [lookup?, this]
    · simp

theorem lookupD_setVal_self (a : BudgetAllocation) (c : Category) (v d : ℚ) :
    lookupD (setVal a c v) c d = v := by
  simp [lookupD, lookup?_setVal_self]

theorem lookupD_setVal_ne (a : BudgetAllocation) (c : Category) (v d : ℚ)
    (c' : Category) (h : c' ≠ c) :
    lookupD (setVal a c v) c' d = lookupD a c' d := by
  simp [lookupD, lookup?_setVal_ne a c v c' h]

theorem lookup?_isSome_iff (a : BudgetAllocation) (c : Category) :
    (lookup? a c).isSome ↔ c ∈ keysOf a := by
  induction a with
  | nil => simp [lookup?, keysOf]
  | cons p rest ih =>
    obtain ⟨k, w⟩ := p
    by_cases hk : k = c
    · simp [lookup?, keysOf, hk]
    · have : ¬ c = k := fun hh => hk hh.symm
      simp [lookup?, keysOf, hk, this, ih]

theorem lookup?_eq_none_of_not_mem (a : BudgetAllocation) (c : Category)
    (h : c ∉ keysOf a) : lookup? a c = none := by
  cases hh : lookup? a c
  · rfl
  · exact absurd ((lookup?_isSome_iff a c).mp (by simp [hh])) h

theorem keysOf_mapUpd (a : BudgetAllocation) (c : Category) (v : ℚ) :
    keysOf (a.map (fun p => if p.1 = c then (c, v) else p)) = keysOf a := by
  unfold keysOf
  rw [List.map_map]
  refine List.map_congr_left fun p _ => ?_
  by_cases hk : p.1 = c <;> simp [hk]

theorem keysOf_setVal (a : BudgetAllocation) (c : Category) (v : ℚ) :
    keysOf (setVal a c v) = if c ∈ keysOf a then keysOf a else keysOf a ++ [c] := by
  by_cases hm : c ∈ keysOf a
  · have hs : (lookup? a c).isSome := (lookup?_isSome_iff a c).mpr hm
    rw [if_pos hm]
    unfold setVal
    rw [if_pos hs]
    exact keysOf_mapUpd a c v
  · have hs : ¬ (lookup? a c).isSome := fun hh => hm ((lookup?_isSome_iff a c).mp hh)
    rw [if_neg hm]
    unfold setVal
    rw [if_neg hs]
    simp [keysOf]

theorem mem_keysOf_setVal (a : BudgetAllocation) (c : Category) (v : ℚ) (c' : Category) :
    c' ∈ keysOf (setVal a c v) ↔ c' ∈ keysOf a ∨ c' = c := by
  rw [keysOf_setVal]
  by_cases hm : c ∈ keysOf a
  · simp only [if_pos hm]
    constructor
    · exact fun h => Or.inl h
    · rintro (h | h)
      · exact h
      · exact h ▸ hm
  · simp [if_neg hm]

theorem nodup_keysOf_setVal (a : BudgetAllocation) (c : Category) (v : ℚ)
    (h : (keysOf a).Nodup) : (keysOf (setVal a c v)).Nodup := by
  rw [keysOf_setVal]
  by_cases hm : c ∈ keysOf a
  · simpa [hm] using h
  · simp only [if_neg hm]
    simp [List.nodup_append, h, hm]

theorem mem_of_lookup?_eq_some (a : BudgetAllocation) (c : Category) (v : ℚ)
    (h : lookup? a c = some v) : (c, v) ∈ a := by
  induction a with
  | nil => simp [lookup?] at h
  | cons p rest ih =>
    obtain ⟨k, w⟩ := p
    by_cases hk : k = c
    · subst hk
      simp [lookup?] at h
      simp [h]
    · simp [lookup?, hk] at h
      exact List.mem_cons_of_mem _ (ih h)

theorem lookup?_eq_some_of_mem (a : BudgetAllocation) (c : Category) (v : ℚ)
    (hn : (keysOf a).Nodup) (hm : (c, v) ∈ a) : lookup? a c = some v := by
  induction a with
  | nil => simp at hm
  | cons p rest ih =>
    obtain ⟨k, w⟩ := p
    simp only [keysOf, List.map_cons, List.nodup_cons] at hn
    rcases List.mem_cons.mp hm with h | h
    · injection h with h1 h2
      subst h1
      subst h2
      simp [lookup?]
    · by_cases hk : k = c
      · subst hk
        exact absurd (List.mem_map_of_mem Prod.fst h) hn.1
      · simpa [lookup?, hk] using ih hn.2 h

/-! ### Lemmas on the subtraction step of reallocation -/

theorem lookupD_subtractStep (a : BudgetAllocation) (v : VendorSelection) (c : Category) :
    lookupD (subtractStep a v) c 0 = lookupD a c 0 - subAmt c v := by
  obtain ⟨cat, price⟩ := v
  cases price with
  | none => simp [subtractStep, subAmt]
  | some p =>
    simp only [subtractStep, subAmt]
    by_cases hempty : cat = ""
    · subst hempty
      have hnc : ¬("" = c ∧ c ≠ "") := by
        rintro ⟨h1, h2⟩
        exact h2 h1.symm
      simp [hnc]
    · rw [if_neg hempty]
      by_cases hc : cat = c
      · subst hc
        rw [lookupD_setVal_self]
        have : (cat = cat ∧ cat ≠ "") := ⟨rfl, hempty⟩
        rw [if_pos this]
      · rw [lookupD_setVal_ne _ _ _ _ _ (fun hh => hc hh.symm)]
        have hnc : ¬(cat = c ∧ c ≠ "") := fun hh => hc hh.1
        rw [if_neg hnc]
        ring

theorem catSubSpend_cons (v : VendorSelection) (sels : List VendorSelection) (c : Category) :
    catSubSpend (v :: sels) c = subAmt c v + catSubSpend sels c := by
  simp [catSubSpend]

theorem lookupD_subtractSpent (sels : List VendorSelection) (a : BudgetAllocation)
    (c : Category) :
    lookupD (subtractSpent a sels) c 0 = lookupD a c 0 - catSubSpend sels c := by
  induction sels generalizing a with
  | nil => simp [subtractSpent, catSubSpend]
  | cons v rest ih =>
    show lookupD (subtractSpent (subtractStep a v) rest) c 0 = _
    rw [ih, lookupD_subtractStep, catSubSpend_cons]
    ring

theorem mem_keysOf_subtractStep (a : BudgetAllocation) (v : VendorSelection) (c : Category) :
    c ∈ keysOf (subtractStep a v) ↔
      c ∈ keysOf a ∨ (v.category = c ∧ c ≠ "" ∧ v.price.isSome) := by
  obtain ⟨cat, price⟩ := v
  cases price with
  | none => simp [subtractStep]
  | some p =>
    simp only [subtractStep]
    by_cases hempty : cat = ""
    · subst hempty
      rw [if_pos rfl]
      constructor
      · exact fun h => Or.inl h
      · rintro (h | ⟨h1, h2, _⟩)
        · exact h
        · exact absurd h1.symm h2
    · rw [if_neg hempty]
      rw [mem_keysOf_setVal]
      constructor
      · rintro (h | h)
        · exact Or.inl h
        · exact Or.inr ⟨h.symm, h ▸ hempty, rfl⟩
      · rintro (h | ⟨h1, _, _⟩)
        · exact Or.inl h
        · exact Or.inr h1.symm

theorem mem_keysOf_subtractSpent (sels : List VendorSelection) (a : BudgetAllocation)
    (c : Category) :
    c ∈ keysOf (subtractSpent a sels) ↔
      c ∈ keysOf a ∨ ∃ v ∈ sels, v.category = c ∧ c ≠ "" ∧ v.price.isSome := by
  induction sels generalizing a with
  | nil => simp [subtractSpent]
  | cons v rest ih =>
    show c ∈ keysOf (subtractSpent (subtractStep a v) rest) ↔ _
    rw [ih, mem_keysOf_subtractStep]
    constructor
    · rintro ((h | h) | ⟨w, hw, hprop⟩)
      · exact Or.inl h
      · exact Or.inr ⟨v, List.mem_cons_self .., h⟩
      · exact Or.inr ⟨w, List.mem_cons_of_mem _ hw, hprop⟩
    · rintro (h | ⟨w, hw, hprop⟩)
      · exact Or.inl (Or.inl h)
      · rcases List.mem_cons.mp hw with hh | hh
        · exact Or.inl (Or.inr (hh ▸ hprop))
        · exact Or.inr ⟨w, hh, hprop⟩

theorem nodup_keysOf_subtractStep (a : BudgetAllocation) (v : VendorSelection)
    (h : (keysOf a).Nodup) : (keysOf (subtractStep a v)).Nodup := by
  obtain ⟨cat, price⟩ := v
  cases price with
  | none => exact h
  | some p =>
    simp only [subtractStep]
    by_cases hempty : cat = ""
    · rw [if_pos hempty]; exact h
    · rw [if_neg hempty]; exact nodup_keysOf_setVal _ _ _ h

theorem nodup_keysOf_subtractSpent (sels : List VendorSelection) (a : BudgetAllocation)
    (h : (keysOf a).Nodup) : (keysOf (subtractSpent a sels)).Nodup := by
  induction sels generalizing a with
  | nil => exact h
  | cons v rest ih => exact ih _ (nodup_keysOf_subtractStep a v h)

/-! ### Lemmas on the remaining categories and redistribution -/

theorem remainingCategories_subset (a : BudgetAllocation) :
    ∀ c ∈ remainingCategories a, c ∈ keysOf a := by
  intro c hc
  unfold remainingCategories at hc
  obtain ⟨p, hp, hpc⟩ := List.mem_map.mp hc
  exact hpc ▸ List.mem_map_of_mem Prod.fst (List.mem_of_mem_filter hp)

theorem nodup_remainingCategories (a : BudgetAllocation) (h : (keysOf a).Nodup) :
    (remainingCategories a).Nodup := by
  unfold remainingCategories
  exact h.sublist ((List.filter_sublist a).map Prod.fst)

theorem mem_remainingCategories_iff (a : BudgetAllocation) (h : (keysOf a).Nodup)
    (c : Category) : c ∈ remainingCategories a ↔ 0 < lookupD a c 0 := by
  unfold remainingCategories
  constructor
  · intro hc
    obtain ⟨p, hp, hpc⟩ := List.mem_map.mp hc
    have hmem := List.mem_of_mem_filter hp
    have hpos : 0 < p.2 := by simpa using List.of_mem_filter hp
    have : lookup? a c = some p.2 := by
      subst hpc
      exact lookup?_eq_some_of_mem a p.1 p.2 h hmem
    simpa [lookupD, this] using hpos
  · intro hpos
    cases hv : lookup? a c with
    | none => simp [lookupD, hv] at hpos
    | some v =>
      have hmem := mem_of_lookup?_eq_some a c v hv
      have hvpos : 0 < v := by simpa [lookupD, hv] using hpos
      refine List.mem_map.mpr ⟨(c, v), List.mem_filter.mpr ⟨hmem, by simpa using hvpos⟩, rfl⟩

theorem keysOf_redistribute (cats : List Category) (a : BudgetAllocation)
    (R A : ℚ) (hsub : ∀ x ∈ cats, x ∈ keysOf a) :
    keysOf (redistribute a cats R A) = keysOf a := by
  induction cats generalizing a with
  | nil => rfl
  | cons c rest ih =>
    show keysOf (redistribute (setVal a c _) rest R A) = _
    have hkeys : keysOf (setVal a c (jsRound (lookupD a c 0 / R * A))) = keysOf a := by
      rw [keysOf_setVal, if_pos (hsub c (List.mem_cons_self ..))]
    rw [ih _ (fun x hx => hkeys ▸ hsub x (List.mem_cons_of_mem _ hx)), hkeys]

theorem lookupD_redistribute (cats : List Category) (a : BudgetAllocation)
    (R A : ℚ) (hn : (keysOf a).Nodup) (hc : cats.Nodup)
    (hsub : ∀ x ∈ cats, x ∈ keysOf a) (c : Category) :
    lookupD (redistribute a cats R A) c 0 =
      if c ∈ cats then jsRound (lookupD a c 0 / R * A) else lookupD a c 0 := by
  induction cats generalizing a with
  | nil => simp [redistribute]
  | cons c0 rest ih =>
    have hc0 : c0 ∉ rest := (List.nodup_cons.mp hc).1
    have hrest : rest.Nodup := (List.nodup_cons.mp hc).2
    have hkeys : keysOf (setVal a c0 (jsRound (lookupD a c0 0 / R * A))) = keysOf a := by
      rw [keysOf_setVal, if_pos (hsub c0 (List.mem_cons_self ..))]
    show lookupD (redistribute (setVal a c0 _) rest R A) c 0 = _
    rw [ih _ (hkeys ▸ hn) hrest (fun x hx => hkeys ▸ hsub x (List.mem_cons_of_mem _ hx))]
    by_cases hcr : c ∈ rest
    · have hne : c ≠ c0 := fun hh => hc0 (hh ▸ hcr)
      rw [if_pos hcr, if_pos (List.mem_cons_of_mem _ hcr),
        lookupD_setVal_ne _ _ _ _ _ hne]
    · by_cases hcc : c = c0
      · subst hcc
        rw [if_neg hcr, if_pos (List.mem_cons_self ..), lookupD_setVal_self]
      · rw [if_neg hcr, if_neg (by
          intro hh
          rcases List.mem_cons.mp hh with h | h
          · exact hcc h
          · exact hcr h),
          lookupD_setVal_ne _ _ _ _ _ hcc]

/-! ### Characterization of reallocateBudget -/

theorem lookupD_reallocate (cur : BudgetAllocation) (sels : List VendorSelection) (B : ℚ)
    (hn : (keysOf cur).Nodup) (c : Category) :
    lookupD (reallocateBudget cur sels B) c 0 =
      if 0 < remainingBudgetOf (subtractSpent cur sels) ∧ 0 < B - spentAmount sels ∧
          0 < lookupD (subtractSpent cur sels) c 0
      then jsRound (lookupD (subtractSpent cur sels) c 0 /
        remainingBudgetOf (subtractSpent cur sels) * (B - spentAmount sels))
      else lookupD (subtractSpent cur sels) c 0 := by
  have hnsub := nodup_keysOf_subtractSpent sels cur hn
  simp only [reallocateBudget]
  by_cases hcond : 0 < remainingBudgetOf (subtractSpent cur sels) ∧ 0 < B - spentAmount sels
  · rw [if_pos hcond]
    rw [lookupD_redistribute _ _ _ _ hnsub (nodup_remainingCategories _ hnsub)
      (remainingCategories_subset _) c]
    by_cases hpos : 0 < lookupD (subtractSpent cur sels) c 0
    · rw [if_pos ((mem_remainingCategories_iff _ hnsub c).mpr hpos),
        if_pos ⟨hcond.1, hcond.2, hpos⟩]
    · rw [if_neg (fun hmem => hpos ((mem_remainingCategories_iff _ hnsub c).mp hmem)),
        if_neg (fun hh => hpos hh.2.2)]
  · rw [if_neg hcond, if_neg (fun hh => hcond ⟨hh.1, hh.2.1⟩)]

theorem mem_keysOf_reallocate (cur : BudgetAllocation) (sels : List VendorSelection)
    (B : ℚ) (c : Category) :
    c ∈ keysOf (reallocateBudget cur sels B) ↔
      c ∈ keysOf cur ∨ ∃ v ∈ sels, v.category = c ∧ c ≠ "" ∧ v.price.isSome := by
  simp only [reallocateBudget]
  split
  · rw [keysOf_redistribute _ _ _ _ (remainingCategories_subset _)]
    exact mem_keysOf_subtractSpent sels cur c
  · exact mem_keysOf_subtractSpent sels cur c

theorem catSubSpend_pos (sels : List VendorSelection) (c : Category) (hne : c ≠ "")
    (hex : ∃ v ∈ sels, v.category = c ∧ v.price.isSome)
    (hpos : ∀ v ∈ sels, v.category = c → ∀ p, v.price = some p → 0 < p) :
    0 < catSubSpend sels c := by
  obtain ⟨v0, hv0, hcat0, hsome0⟩ := hex
  obtain ⟨p0, hp0⟩ := Option.isSome_iff_exists.mp hsome0
  have hterm : subAmt c v0 = p0 := by simp [subAmt, hp0, hcat0, hne]
  have hp0pos : 0 < p0 := hpos v0 hv0 hcat0 p0 hp0
  have hnonneg : ∀ x ∈ sels.map (subAmt c), 0 ≤ x := by
    intro x hx
    obtain ⟨v, hv, hvx⟩ := List.mem_map.mp hx
    subst hvx
    cases hvp : v.price with
    | none => simp [subAmt, hvp]
    | some p =>
      by_cases hcv : v.category = c ∧ c ≠ ""
      · have := hpos v hv hcv.1 p hvp
        simp only [subAmt, hvp, if_pos hcv]
        linarith
      · simp [subAmt, hvp, hcv]
  have hle : subAmt c v0 ≤ (sels.map (subAmt c)).sum :=
    List.single_le_sum hnonneg _ (List.mem_map_of_mem _ hv0)
  have : (0 : ℚ) < (sels.map (subAmt c)).sum := lt_of_lt_of_le (hterm ▸ hp0pos) hle
  exact this

/-! ### Claim C1 -/

/-- C1: `reallocateBudget` follows the algorithm of the spec exactly: starting
from a copy of the current allocation, every selection with a known
(nonempty) category and a defined price is subtracted from its category
(missing entries start at 0); when the sum of the post-subtraction
positive categories and the unspent part of the total budget are both
positive, every positive category `c` is set to
`round(value / remainingBudget * available)` and every other category
keeps its post-subtraction value, otherwise the step-2 allocation is
returned unchanged; and on the fixture of the spec the result is a=50,
b=100. -/
theorem reallocate_follows_spec_algorithm :
    (∀ (cur : BudgetAllocation) (sels : List VendorSelection) (B : ℚ),
      (keysOf cur).Nodup →
      (∀ c, lookupD (subtractSpent cur sels) c 0 = lookupD cur c 0 - catSubSpend sels c) ∧
      (∀ c, c ∈ keysOf (reallocateBudget cur sels B) ↔
        c ∈ keysOf cur ∨ ∃ v ∈ sels, v.category = c ∧ c ≠ "" ∧ v.price.isSome) ∧
      (∀ c, lookupD (reallocateBudget cur sels B) c 0 =
        if 0 < remainingBudgetOf (subtractSpent cur sels) ∧ 0 < B - spentAmount sels ∧
            0 < lookupD (subtractSpent cur sels) c 0
        then jsRound (lookupD (subtractSpent cur sels) c 0 /
          remainingBudgetOf (subtractSpent cur sels) * (B - spentAmount sels))
        else lookupD (subtractSpent cur sels) c 0)) ∧
    reallocateBudget [("a", 100), ("b", 100)] [⟨"a", some 50⟩] 200 =
      [("a", 50), ("b", 100)] := by
  constructor
  · intro cur sels B hn
    exact ⟨fun c => lookupD_subtractSpent sels cur c,
      fun c => mem_keysOf_reallocate cur sels B c,
      fun c => lookupD_reallocate cur sels B hn c⟩
  · norm_num +decide [reallocateBudget, subtractSpent, subtractStep, setVal, lookup?,
      lookupD, keysOf, remainingBudgetOf, remainingCategories, redistribute, spentAmount,
      jsRound, Option.isSome, List.foldl, List.filter, List.map, Option.getD]

/-- Witness for C1: the subtraction characterization evaluated on the
fixture of the spec. -/
theorem reallocate_follows_spec_algorithm_witness :
    lookupD (subtractSpent [("a", (100 : ℚ)), ("b", 100)] [⟨"a", some 50⟩]) "a" 0 =
      lookupD [("a", (100 : ℚ)), ("b", 100)] "a" 0 - catSubSpend [⟨"a", some 50⟩] "a" :=
  (reallocate_follows_spec_algorithm.1 [("a", 100), ("b", 100)] [⟨"a", some 50⟩] 200
    (by decide)).1 "a"

/-! ### Claim C3 -/

/-- C3 counterexample: quantified over all prices the claim fails — with
the single selection of category `x` at price −5 and an empty allocation,
the synthesized category `x` ends up strictly positive (5, not `0 − price`
negative) and it IS a remaining category eligible for redistribution. -/
theorem absent_category_claim_cx :
    0 < lookupD (reallocateBudget [] [⟨"x", some (-5)⟩] 0) "x" 0 ∧
    "x" ∈ remainingCategories (subtractSpent [] [⟨"x", some (-5)⟩]) := by
  norm_num +decide [reallocateBudget, subtractSpent, subtractStep, setVal, lookup?,
    lookupD, keysOf, remainingBudgetOf, remainingCategories, redistribute, spentAmount,
    jsRound, Option.isSome, List.foldl, List.filter, List.map, Option.getD]

/-- C3 as amended: for a nonempty category `c` absent from the input
allocation that occurs in at least one selection with a defined price,
all of whose defined prices are positive, the output contains `c` at
value `0 −` (the total of those prices), which is negative, and `c` is
never one of the remaining categories eligible for redistribution. -/
theorem absent_category_synthesized_negative :
    ∀ (cur : BudgetAllocation) (sels : List VendorSelection) (B : ℚ) (c : Category),
      (keysOf cur).Nodup → c ≠ "" → c ∉ keysOf cur →
      (∃ v ∈ sels, v.category = c ∧ v.price.isSome) →
      (∀ v ∈ sels, v.category = c → ∀ p, v.price = some p → 0 < p) →
      c ∈ keysOf (reallocateBudget cur sels B) ∧
      lookupD (reallocateBudget cur sels B) c 0 = 0 - catSubSpend sels c ∧
      lookupD (reallocateBudget cur sels B) c 0 < 0 ∧
      c ∉ remainingCategories (subtractSpent cur sels) := by
  intro cur sels B c hn hne hnotin hex hpos
  have hspos := catSubSpend_pos sels c hne hex hpos
  have hcur0 : lookupD cur c 0 = 0 := by
    simp [lookupD, lookup?_eq_none_of_not_mem cur c hnotin]
  have hsub : lookupD (subtractSpent cur sels) c 0 = 0 - catSubSpend sels c := by
    rw [lookupD_subtractSpent, hcur0]
  have hneg : lookupD (subtractSpent cur sels) c 0 < 0 := by
    rw [hsub]; linarith
  have hfinal : lookupD (reallocateBudget cur sels B) c 0 =
      lookupD (subtractSpent cur sels) c 0 := by
    rw [lookupD_reallocate cur sels B hn c,
      if_neg (fun hh => absurd hh.2.2 (not_lt.mpr (le_of_lt hneg)))]
  refine ⟨?_, ?_, ?_, ?_⟩
  · refine (mem_keysOf_reallocate cur sels B c).mpr (Or.inr ?_)
    obtain ⟨v, hv, h1, h2⟩ := hex
    exact ⟨v, hv, h1, hne, h2⟩
  · rw [hfinal, hsub]
  · rw [hfinal]; exact hneg
  · intro hmem
    have := (mem_remainingCategories_iff _ (nodup_keysOf_subtractSpent sels cur hn) c).mp hmem
    linarith

/-- Witness for C3 (amended): a concrete absent category at price 30. -/
theorem absent_category_synthesized_negative_witness :
    "a" ∈ keysOf (reallocateBudget [("b", (100 : ℚ))] [⟨"a", some 30⟩] 200) ∧
    lookupD (reallocateBudget [("b", (100 : ℚ))] [⟨"a", some 30⟩] 200) "a" 0 =
      0 - catSubSpend [⟨"a", some 30⟩] "a" ∧
    lookupD (reallocateBudget [("b", (100 : ℚ))] [⟨"a", some 30⟩] 200) "a" 0 < 0 ∧
    "a" ∉ remainingCategories (subtractSpent [("b", (100 : ℚ))] [⟨"a", some 30⟩]) :=
  absent_category_synthesized_negative [("b", 100)] [⟨"a", some 30⟩] 200 "a"
    (by decide) (by decide) (by decide) (by decide)
    (by
      intro v hv hcat p hp
      rcases List.mem_singleton.mp hv with rfl
      cases hp
      norm_num)

/-! ### Identity lemmas for the round-trip claim -/

theorem jsRound_intCast (n : ℤ) : jsRound (n : ℚ) = n := by
  have h : ⌊(n : ℚ) + 1/2⌋ = n := by
    rw [add_comm, Int.floor_add_int]
    norm_num
  rw [jsRound, h]

theorem mapUpd_eq_self (c : Category) (v : ℚ) :
    ∀ a : BudgetAllocation, (keysOf a).Nodup → lookup? a c = some v →
      a.map (fun p => if p.1 = c then (c, v) else p) = a := by
  intro a
  induction a with
  | nil => intro _ _; rfl
  | cons p rest ih =>
    intro hn h
    obtain ⟨k, w⟩ := p
    simp only [keysOf, List.map_cons, List.nodup_cons] at hn
    by_cases hk : k = c
    · subst hk
      have hw : w = v := by
        have h2 : some w = some v := by simpa [lookup?] using h
        exact Option.some.inj h2
      subst hw
      have hnone : ∀ q ∈ rest, ¬ (q : Category × ℚ).1 = k := by
        intro q hq hqk
        exact hn.1 (hqk ▸ List.mem_map_of_mem Prod.fst hq)
      simp only [List.map_cons, ite_self]
      exact congrArg (List.cons (k, w))
        ((List.map_congr_left fun q hq => by rw [if_neg (hnone q hq)]; rfl).trans
          (List.map_id rest))
    · have hrest : lookup? rest c = some v := by simpa [lookup?, hk] using h
      simp only [List.map_cons]
      congr 1
      · exact if_neg hk
      · exact ih hn.2 hrest

theorem setVal_eq_self (a : BudgetAllocation) (c : Category) (v : ℚ)
    (hn : (keysOf a).Nodup) (h : lookup? a c = some v) : setVal a c v = a := by
  unfold setVal
  rw [if_pos (by simp [h])]
  exact mapUpd_eq_self c v a hn h

theorem redistribute_eq_self (R A : ℚ) :
    ∀ (cats : List Category) (a : BudgetAllocation), (keysOf a).Nodup →
      (∀ c ∈ cats, (lookup? a c).isSome) →
      (∀ c ∈ cats, jsRound (lookupD a c 0 / R * A) = lookupD a c 0) →
      redistribute a cats R A = a := by
  intro cats
  induction cats with
  | nil => intro a _ _ _; rfl
  | cons c rest ih =>
    intro a hn hmem hfix
    obtain ⟨w, hw⟩ := Option.isSome_iff_exists.mp (hmem c (List.mem_cons_self c rest))
    have hlv : lookupD a c 0 = w := by simp [lookupD, hw]
    have hset : setVal a c (jsRound (lookupD a c 0 / R * A)) = a := by
      rw [hfix c (List.mem_cons_self c rest), hlv]
      exact setVal_eq_self a c w hn hw
    show redistribute (setVal a c (jsRound (lookupD a c 0 / R * A))) rest R A = a
    rw [hset]
    exact ih a hn (fun x hx => hmem x (List.mem_cons_of_mem _ hx))
      (fun x hx => hfix x (List.mem_cons_of_mem _ hx))

theorem templateFor_cases (et : String) :
    templateFor et =
        [("venue", 0.30), ("catering", 0.25), ("photography", 0.12),
         ("flowers", 0.08), ("music", 0.07), ("misc", 0.18)] ∨
      templateFor et =
        [("venue", 0.20), ("catering", 0.30), ("entertainment", 0.20),
         ("decor", 0.10), ("misc", 0.20)] ∨
      templateFor et = [] := by
  by_cases h1 : et = "wedding"
  · subst h1; left; rfl
  · by_cases h2 : et = "birthday"
    · subst h2; right; left; rfl
    · right; right
      simp [templateFor, templates, List.lookup,
        beq_eq_false_iff_ne.mpr h1, beq_eq_false_iff_ne.mpr h2]

theorem templateFor_unknown (et : String) (h1 : et ≠ "wedding") (h2 : et ≠ "birthday") :
    templateFor et = [] := by
  simp [templateFor, templates, List.lookup,
    beq_eq_false_iff_ne.mpr h1, beq_eq_false_iff_ne.mpr h2]

theorem nodup_keysOf_templateFor (et : String) : (keysOf (templateFor et)).Nodup := by
  rcases templateFor_cases et with h | h | h <;> rw [h] <;> decide

theorem keysOf_allocateBudget (B : ℚ) (et : String) :
    keysOf (allocateBudget B et) = keysOf (templateFor et) := by
  unfold allocateBudget keysOf
  rw [List.map_map]
  rfl

theorem allocateBudget_values (B : ℚ) (et : String) (c : Category) (v : ℚ)
    (h : (c, v) ∈ allocateBudget B et) : ∃ n : ℤ, v = (n : ℚ) := by
  unfold allocateBudget at h
  obtain ⟨p, hp, hpe⟩ := List.mem_map.mp h
  refine ⟨⌊p.2 * B + 1/2⌋, ?_⟩
  have h2 := congrArg Prod.snd hpe
  simpa [jsRound] using h2.symm

/-! ### Claim C2 -/

/-- C2 counterexample: at totalBudget 22 for a wedding, `allocate` gives
venue 7 (round of 6.6) among values summing to 24, and the empty-selection
round-trip rescales venue to round(7/24 × 22) = 6, so the result is not
the original allocation. -/
theorem roundTrip_not_identity_cx :
    reallocateBudget (allocateBudget 22 "wedding") [] 22 ≠ allocateBudget 22 "wedding" := by
  norm_num +decide [reallocateBudget, subtractSpent, subtractStep, setVal, lookup?,
    lookupD, keysOf, remainingBudgetOf, remainingCategories, redistribute, spentAmount,
    jsRound, Option.isSome, List.foldl, List.filter, List.map, Option.getD,
    allocateBudget, templateFor, templates, List.lookup]

/-- C2 as amended: the empty-selection round-trip reproduces the
allocation whenever the positive allocated values sum exactly to the
total budget (each positive integer value v is remapped to
round(v / totalBudget × totalBudget) = v), and trivially for unknown
event types (empty template); in particular it holds at totalBudget 1000
for a wedding. With rounding drift (e.g. totalBudget 22) a category can
change, so the unconditional claim fails. -/
theorem roundTrip_identity_amended :
    (∀ (B : ℚ) (et : String), 0 < B →
      remainingBudgetOf (allocateBudget B et) = B →
      reallocateBudget (allocateBudget B et) [] B = allocateBudget B et) ∧
    (∀ (B : ℚ) (et : String), templateFor et = [] →
      reallocateBudget (allocateBudget B et) [] B = allocateBudget B et) ∧
    reallocateBudget (allocateBudget 1000 "wedding") [] 1000 = allocateBudget 1000 "wedding" := by
  have key : ∀ (B : ℚ) (et : String), 0 < B →
      remainingBudgetOf (allocateBudget B et) = B →
      reallocateBudget (allocateBudget B et) [] B = allocateBudget B et := by
    intro B et hB hR
    have hn : (keysOf (allocateBudget B et)).Nodup := by
      rw [keysOf_allocateBudget]; exact nodup_keysOf_templateFor et
    have hsub : subtractSpent (allocateBudget B et) [] = allocateBudget B et := rfl
    have hsp : spentAmount ([] : List VendorSelection) = 0 := rfl
    simp only [reallocateBudget, hsub, hsp, sub_zero]
    rw [if_pos ⟨by rw [hR]; exact hB, hB⟩, hR]
    refine redistribute_eq_self B B _ _ hn ?_ ?_
    · intro c hc
      exact (lookup?_isSome_iff _ c).mpr (remainingCategories_subset _ c hc)
    · intro c hc
      obtain ⟨w, hw⟩ := Option.isSome_iff_exists.mp
        ((lookup?_isSome_iff _ c).mpr (remainingCategories_subset _ c hc))
      have hlv : lookupD (allocateBudget B et) c 0 = w := by simp [lookupD, hw]
      obtain ⟨n, hnw⟩ := allocateBudget_values B et c w (mem_of_lookup?_eq_some _ _ _ hw)
      rw [hlv, div_mul_cancel₀ _ (ne_of_gt hB), hnw, jsRound_intCast]
  refine ⟨key, ?_, ?_⟩
  · intro B et htempl
    have halloc : allocateBudget B et = [] := by
      unfold allocateBudget; rw [htempl]; rfl
    rw [halloc]
    simp only [reallocateBudget]
    rw [if_neg]
    · rfl
    · rintro ⟨h1, _⟩
      norm_num [subtractSpent, remainingBudgetOf, List.filter] at h1
  · exact key 1000 "wedding" (by norm_num)
      (by norm_num +decide [allocateBudget, templateFor, templates, List.lookup, jsRound,
        remainingBudgetOf, List.filter, List.map])

/-- Witness for C2 (amended): the identity round-trip at totalBudget 200
for a wedding, where the allocated values sum to exactly 200. -/
theorem roundTrip_identity_amended_witness :
    reallocateBudget (allocateBudget 200 "wedding") [] 200 = allocateBudget 200 "wedding" :=
  roundTrip_identity_amended.1 200 "wedding" (by norm_num)
    (by norm_num +decide [allocateBudget, templateFor, templates, List.lookup, jsRound,
      remainingBudgetOf, List.filter, List.map])

/-! ### Claim C4 -/

theorem lookup?_map_values (g : ℚ → ℚ) (a : BudgetAllocation) (c : Category) :
    lookup? (a.map (fun p => (p.1, g p.2))) c = (lookup? a c).map g := by
  induction a with
  | nil => rfl
  | cons p rest ih =>
    obtain ⟨k, w⟩ := p
    by_cases hk : k = c
    · subst hk; simp [lookup?]
    · simp [lookup?, hk, ih]

/-- C4: `allocateBudget` returns a mapping whose keys are exactly the
template categories, with the value of each category `round(fraction ×
totalBudget)` (Math.round, half toward +∞), an unknown event type yields
the empty mapping, and `allocate(1000, "wedding")` gives the six
values. -/
theorem allocate_template_rounding :
    (∀ (B : ℚ) (et : String), keysOf (allocateBudget B et) = keysOf (templateFor et)) ∧
    (∀ (B : ℚ) (et : String) (c : Category) (f : ℚ),
      lookup? (templateFor et) c = some f →
      lookup? (allocateBudget B et) c = some (jsRound (f * B))) ∧
    (∀ (B : ℚ) (et : String), et ≠ "wedding" → et ≠ "birthday" →
      allocateBudget B et = []) ∧
    allocateBudget 1000 "wedding" =
      [("venue", 300), ("catering", 250), ("photography", 120), ("flowers", 80),
       ("music", 70), ("misc", 180)] := by
  refine ⟨keysOf_allocateBudget, ?_, ?_, ?_⟩
  · intro B et c f h
    have h2 := lookup?_map_values (fun x => jsRound (x * B)) (templateFor et) c
    rw [h] at h2
    simpa [allocateBudget] using h2
  · intro B et h1 h2
    unfold allocateBudget
    rw [templateFor_unknown et h1 h2]
    rfl
  · norm_num +decide [allocateBudget, templateFor, templates, List.lookup, jsRound, List.map]

/-- Witness for C4: an unknown event type yields the empty allocation, and
the venue fraction of the wedding template allocates round(0.30 × 500) at
totalBudget 500. -/
theorem allocate_template_rounding_witness :
    allocateBudget 77 "quinceanera" = [] ∧
    lookup? (allocateBudget 500 "wedding") "venue" = some (jsRound (0.30 * 500)) :=
  ⟨allocate_template_rounding.2.2.1 77 "quinceanera" (by decide) (by decide),
   allocate_template_rounding.2.1 500 "wedding" "venue" 0.30
     (by norm_num +decide [lookup?, templateFor, templates, List.lookup])⟩

/-! ### Lemmas on overage warnings -/

theorem foldl_ite_append {α β : Type} (P : α → Prop) [DecidablePred P] (f : α → β) :
    ∀ (l : List α) (init : List β),
      l.foldl (fun rs x => if P x then rs ++ [f x] else rs) init =
        init ++ (l.filter (fun x => decide (P x))).map f := by
  intro l
  induction l with
  | nil => intro init; simp
  | cons x rest ih =>
    intro init
    by_cases hx : P x
    · simp only [List.foldl_cons, if_pos hx, ih, List.filter_cons, decide_eq_true_eq,
        hx, if_true, List.map_cons, List.append_assoc, List.singleton_append]
    · simp only [List.foldl_cons, if_neg hx, ih, List.filter_cons, decide_eq_true_eq,
        hx, if_false, ite_false]

theorem getOverageWarnings_eq (alloc : BudgetAllocation) (sels : List VendorSelection) :
    getOverageWarnings alloc sels =
      ((spentPerCategoryOf sels).filter (fun p => decide (lookupD alloc p.1 0 < p.2))).map
        (fun p => overMsg p.1 (p.2 - lookupD alloc p.1 0)) := by
  unfold getOverageWarnings
  rw [foldl_ite_append (fun p => lookupD alloc p.1 0 < p.2)
    (fun p => overMsg p.1 (p.2 - lookupD alloc p.1 0)) (spentPerCategoryOf sels) [],
    List.nil_append]

theorem catAllSpend_cons (v : VendorSelection) (sels : List VendorSelection) (c : Category) :
    catAllSpend (v :: sels) c =
      (if v.category = c then v.price.getD 0 else 0) + catAllSpend sels c := by
  simp [catAllSpend]

theorem lookupD_spentFold (sels : List VendorSelection) :
    ∀ (m : BudgetAllocation) (c : Category),
      lookupD (sels.foldl
        (fun m v => setVal m v.category (lookupD m v.category 0 + v.price.getD 0)) m) c 0 =
      lookupD m c 0 + catAllSpend sels c := by
  induction sels with
  | nil => intro m c; simp [catAllSpend]
  | cons v rest ih =>
    intro m c
    rw [List.foldl_cons, ih, catAllSpend_cons]
    by_cases hc : v.category = c
    · subst hc
      rw [lookupD_setVal_self, if_pos rfl]
      ring
    · rw [lookupD_setVal_ne _ _ _ _ _ (fun hh => hc hh.symm), if_neg hc]
      ring

theorem lookupD_spentPerCategoryOf (sels : List VendorSelection) (c : Category) :
    lookupD (spentPerCategoryOf sels) c 0 = catAllSpend sels c := by
  unfold spentPerCategoryOf
  rw [lookupD_spentFold]
  simp [lookupD, lookup?]

theorem mem_keysOf_spentFold (sels : List VendorSelection) :
    ∀ (m : BudgetAllocation) (c : Category),
      (c ∈ keysOf (sels.foldl
        (fun m v => setVal m v.category (lookupD m v.category 0 + v.price.getD 0)) m) ↔
      c ∈ keysOf m ∨ ∃ v ∈ sels, v.category = c) := by
  induction sels with
  | nil => intro m c; simp
  | cons v rest ih =>
    intro m c
    rw [List.foldl_cons, ih, mem_keysOf_setVal]
    constructor
    · rintro ((h | h) | ⟨w, hw, hwc⟩)
      · exact Or.inl h
      · exact Or.inr ⟨v, List.mem_cons_self v rest, h.symm⟩
      · exact Or.inr ⟨w, List.mem_cons_of_mem _ hw, hwc⟩
    · rintro (h | ⟨w, hw, hwc⟩)
      · exact Or.inl (Or.inl h)
      · rcases List.mem_cons.mp hw with hh | hh
        · exact Or.inl (Or.inr (hh ▸ hwc).symm)
        · exact Or.inr ⟨w, hh, hwc⟩

theorem mem_keysOf_spentPerCategoryOf (sels : List VendorSelection) (c : Category) :
    c ∈ keysOf (spentPerCategoryOf sels) ↔ c ∈ sels.map VendorSelection.category := by
  unfold spentPerCategoryOf
  rw [mem_keysOf_spentFold]
  simp [keysOf, List.mem_map]

theorem nodup_keysOf_spentFold (sels : List VendorSelection) :
    ∀ m : BudgetAllocation, (keysOf m).Nodup →
      (keysOf (sels.foldl
        (fun m v => setVal m v.category (lookupD m v.category 0 + v.price.getD 0)) m)).Nodup := by
  induction sels with
  | nil => intro m h; exact h
  | cons v rest ih =>
    intro m h
    rw [List.foldl_cons]
    exact ih _ (nodup_keysOf_setVal _ _ _ h)

theorem nodup_keysOf_spentPerCategoryOf (sels : List VendorSelection) :
    (keysOf (spentPerCategoryOf sels)).Nodup :=
  nodup_keysOf_spentFold sels [] (by simp [keysOf])

theorem lookup?_filter_ne (a : BudgetAllocation) (c c' : Category) (h : c' ≠ c) :
    lookup? (a.filter (fun p => decide (¬ p.1 = c))) c' = lookup? a c' := by
  induction a with
  | nil => rfl
  | cons p rest ih =>
    obtain ⟨k, w⟩ := p
    simp only [decide_not] at ih
    by_cases hk : k = c
    · subst hk
      have hkc : ¬ k = c' := fun hh => h hh.symm
      simp [List.filter_cons, lookup?, hkc, ih]
    · by_cases hk' : k = c'
      · subst hk'
        simp [List.filter_cons, lookup?, hk, ih]
      · simp [List.filter_cons, lookup?, hk, hk', ih]

/-! ### Claim C7 -/

/-- C7: `getOverageWarnings` aggregates spend per category (missing price
counted 0), its aggregation keys are exactly the selection categories
without duplicates, and the output is exactly one warning string — naming
the category and the two-decimal overage — for each aggregated category
whose spend exceeds its allocated value (0 when absent), none otherwise;
the fixture of the spec yields exactly ["venue is over budget by $50.00"]. -/
theorem overage_warnings_exact :
    (∀ sels : List VendorSelection, (keysOf (spentPerCategoryOf sels)).Nodup) ∧
    (∀ (sels : List VendorSelection) (c : Category),
      c ∈ keysOf (spentPerCategoryOf sels) ↔ c ∈ sels.map VendorSelection.category) ∧
    (∀ (sels : List VendorSelection) (c : Category),
      lookupD (spentPerCategoryOf sels) c 0 = catAllSpend sels c) ∧
    (∀ (alloc : BudgetAllocation) (sels : List VendorSelection),
      getOverageWarnings alloc sels =
        ((spentPerCategoryOf sels).filter (fun p => decide (lookupD alloc p.1 0 < p.2))).map
          (fun p => overMsg p.1 (p.2 - lookupD alloc p.1 0))) ∧
    getOverageWarnings [("venue", 100)] [⟨"venue", some 150⟩] =
      ["venue is over budget by $50.00"] := by
  refine ⟨nodup_keysOf_spentPerCategoryOf, mem_keysOf_spentPerCategoryOf,
    lookupD_spentPerCategoryOf, getOverageWarnings_eq, ?_⟩
  norm_num +decide [getOverageWarnings, spentPerCategoryOf, setVal, lookup?, lookupD,
    overMsg, toFixed2, centsRender, List.foldl, Option.isSome, Option.getD, List.filter,
    List.map, Int.toNat_ofNat]

/-! ### Claim C10 -/

/-- C10: every warning returned by `getOverageWarnings` is the overage
message of the category of some selection, and entries of the allocation whose
category matches no selection (negative or not) never influence the
output: filtering such a category out of the allocation leaves the
warnings unchanged, so it never produces a warning. -/
theorem warnings_name_selected_categories :
    (∀ (alloc : BudgetAllocation) (sels : List VendorSelection),
      ∀ w ∈ getOverageWarnings alloc sels,
        ∃ v ∈ sels, ∃ amt : ℚ, w = overMsg v.category amt) ∧
    (∀ (alloc : BudgetAllocation) (sels : List VendorSelection) (c : Category),
      (∀ v ∈ sels, v.category ≠ c) →
      getOverageWarnings alloc sels =
        getOverageWarnings (alloc.filter (fun p => decide (¬ p.1 = c))) sels) := by
  constructor
  · intro alloc sels w hw
    rw [getOverageWarnings_eq] at hw
    obtain ⟨p, hp, hpw⟩ := List.mem_map.mp hw
    have hpmem : p ∈ spentPerCategoryOf sels := List.mem_of_mem_filter hp
    have hkey : p.1 ∈ keysOf (spentPerCategoryOf sels) := List.mem_map_of_mem Prod.fst hpmem
    obtain ⟨v, hv, hvc⟩ :=
      List.mem_map.mp ((mem_keysOf_spentPerCategoryOf sels p.1).mp hkey)
    exact ⟨v, hv, p.2 - lookupD alloc p.1 0, by rw [← hpw, hvc]⟩
  · intro alloc sels c hc
    have hlook : ∀ p ∈ spentPerCategoryOf sels,
        lookupD (alloc.filter (fun p => decide (¬ p.1 = c))) p.1 0 = lookupD alloc p.1 0 := by
      intro p hp
      have hkey : p.1 ∈ keysOf (spentPerCategoryOf sels) := List.mem_map_of_mem Prod.fst hp
      obtain ⟨v, hv, hvc⟩ :=
        List.mem_map.mp ((mem_keysOf_spentPerCategoryOf sels p.1).mp hkey)
      have hne : p.1 ≠ c := hvc ▸ hc v hv
      unfold lookupD
      rw [lookup?_filter_ne alloc c p.1 hne]
    rw [getOverageWarnings_eq, getOverageWarnings_eq]
    have h1 : ((spentPerCategoryOf sels).filter
        (fun p => decide (lookupD (alloc.filter (fun p => decide (¬ p.1 = c))) p.1 0 < p.2))) =
        ((spentPerCategoryOf sels).filter (fun p => decide (lookupD alloc p.1 0 < p.2))) :=
      List.filter_congr fun p hp => by rw [hlook p hp]
    rw [h1]
    exact List.map_congr_left fun p hp => by
      rw [hlook p (List.mem_of_mem_filter hp)]

/-- Witness for C10: removing the unselected, negatively allocated
category `x` from the allocation leaves the warnings unchanged. -/
theorem warnings_name_selected_categories_witness :
    getOverageWarnings [("venue", (100 : ℚ)), ("x", -5)] [⟨"venue", some 150⟩] =
      getOverageWarnings
        ([("venue", (100 : ℚ)), ("x", -5)].filter (fun p => decide (¬ p.1 = "x")))
        [⟨"venue", some 150⟩] :=
  warnings_name_selected_categories.2 [("venue", 100), ("x", -5)] [⟨"venue", some 150⟩] "x"
    (by decide)

/-! ### Claim C8 -/

theorem iterate_getNextState_planning (n : ℕ) :
    getNextState^[n] ConversationState.PLANNING = ConversationState.PLANNING := by
  induction n with
  | zero => rfl
  | succ k ih =>
    rw [Function.iterate_succ_apply,
      show getNextState ConversationState.PLANNING = ConversationState.PLANNING by decide]
    exact ih

/-- C8: `getNextState` returns PLANNING for every state outside the
ordered sequence (INITIAL included) and for the last element, and
otherwise the immediately following element of the sequence; applying it
7 times from INITIAL reaches PLANNING and every further application keeps
returning PLANNING. -/
theorem next_state_progression :
    (∀ s : ConversationState, s ∉ orderedStates →
      getNextState s = ConversationState.PLANNING) ∧
    getNextState ConversationState.PLANNING = ConversationState.PLANNING ∧
    (getNextState ConversationState.EVENT_TYPE = ConversationState.SCOPE ∧
     getNextState ConversationState.SCOPE = ConversationState.BUDGET ∧
     getNextState ConversationState.BUDGET = ConversationState.LOCATION ∧
     getNextState ConversationState.LOCATION = ConversationState.DATE ∧
     getNextState ConversationState.DATE = ConversationState.STYLE ∧
     getNextState ConversationState.STYLE = ConversationState.PLANNING) ∧
    getNextState^[7] ConversationState.INITIAL = ConversationState.PLANNING ∧
    (∀ n : ℕ, getNextState^[7 + n] ConversationState.INITIAL = ConversationState.PLANNING) := by
  refine ⟨by decide, by decide, by decide, by decide, ?_⟩
  intro n
  rw [add_comm, Function.iterate_add_apply,
    show getNextState^[7] ConversationState.INITIAL = ConversationState.PLANNING by decide]
  exact iterate_getNextState_planning n

/-- Witness for C8: INITIAL is not in the ordered sequence and advancing
from it yields PLANNING. -/
theorem next_state_progression_witness :
    getNextState ConversationState.INITIAL = ConversationState.PLANNING :=
  next_state_progression.1 ConversationState.INITIAL (by decide)

/-! ### Claim C5 -/

theorem nearingLimit_iff (r B : ℚ) :
    nearingLimit r B ↔ (B ≠ 0 ∧ r / B < 0.1) ∨ (B = 0 ∧ r < 0) := by
  unfold nearingLimit
  by_cases hB : B = 0
  · rw [if_pos hB]
    constructor
    · intro h; exact Or.inr ⟨hB, h⟩
    · rintro (⟨hne, _⟩ | ⟨_, h⟩)
      · exact absurd hB hne
      · exact h
  · rw [if_neg hB]
    constructor
    · intro h; exact Or.inl ⟨hB, h⟩
    · rintro (⟨_, h⟩ | ⟨heq, _⟩)
      · exact h
      · exact absurd heq hB

/-- C5 counterexample: at totalBudget 0 (which is ≤ 0) with no selections
the code emits the room-to-splurge message, not the nearing-limit message
the claim requires for totalBudget ≤ 0 — in JS `0/0 = NaN` and
`NaN < 0.1` is false, so the splurge branch runs. -/
theorem recommendations_zero_budget_cx :
    getBudgetRecommendations 0 [] "wedding" = [splurgeRoomMsg] ∧
    nearLimitMsg ∉ getBudgetRecommendations 0 [] "wedding" := by
  have h : getBudgetRecommendations 0 [] "wedding" = [splurgeRoomMsg] := by
    norm_num +decide [getBudgetRecommendations, templateFor, templates, List.lookup,
      spentAmount, catSpend, nearingLimit, List.foldl, List.filter]
  refine ⟨h, ?_⟩
  rw [h]
  intro hmem
  exact absurd (List.mem_singleton.mp hmem) (by decide)

/-- C5 as amended: the template-driven recommendations are exactly one
"invest more" message per template category with positive implied
allocation and spend below half of it, followed by the nearing-limit
message when `totalBudget ≠ 0` and `remaining / totalBudget < 0.1`, or
when `totalBudget = 0` and `remaining < 0` (JS division semantics at
zero), and the room-to-splurge message otherwise; a nonzero negative
total budget follows the plain ratio comparison, not an unconditional
nearing-limit branch. -/
theorem recommendations_trigger_conditions :
    ∀ (B : ℚ) (sels : List VendorSelection) (et : String),
      getBudgetRecommendations B sels et =
        ((templateFor et).filter
            (fun p => decide (0 < p.2 * B ∧ catSpend sels p.1 < 0.5 * (p.2 * B)))).map
          (fun p => investMsg p.1) ++
        [if (B ≠ 0 ∧ (B - spentAmount sels) / B < 0.1) ∨ (B = 0 ∧ B - spentAmount sels < 0)
         then nearLimitMsg else splurgeRoomMsg] := by
  intro B sels et
  simp only [getBudgetRecommendations]
  rw [foldl_ite_append (fun p => 0 < p.2 * B ∧ catSpend sels p.1 / (p.2 * B) < 0.5)
    (fun p => investMsg p.1) (templateFor et) [], List.nil_append]
  have hfilter : ((templateFor et).filter
      (fun p => decide (0 < p.2 * B ∧ catSpend sels p.1 / (p.2 * B) < 0.5))) =
      ((templateFor et).filter
        (fun p => decide (0 < p.2 * B ∧ catSpend sels p.1 < 0.5 * (p.2 * B)))) :=
    List.filter_congr fun p _ =>
      decide_eq_decide.mpr (and_congr_right fun ha => div_lt_iff₀ ha)
  rw [hfilter]
  by_cases hc : nearingLimit (B - spentAmount sels) B
  · rw [if_pos hc, if_pos ((nearingLimit_iff _ _).mp hc)]
  · rw [if_neg hc, if_neg (fun hh => hc ((nearingLimit_iff _ _).mpr hh))]

/-! ### Lemmas on the priority-driven recommender -/

theorem categoryStep_append (sels : List Recommender.VendorSelection)
    (prefs : Recommender.UserPreferences) (rs : List String) (c : Category) :
    Recommender.categoryStep (Recommender.spentByCategoryOf sels) prefs.categoryPriorities
      (Recommender.remainingOf sels prefs) prefs.totalBudget
      (Recommender.totalOf prefs.categoryPriorities) rs c =
      rs ++ Recommender.specCategoryMsgs sels prefs c := by
  simp only [Recommender.categoryStep, Recommender.specCategoryMsgs]
  by_cases h1 : 0 < lookupD prefs.categoryPriorities c 0 ∧
      0 < Recommender.remainingOf sels prefs ∧
      lookupD (Recommender.spentByCategoryOf sels) c 0 <
        0.5 * lookupD prefs.categoryPriorities c 0 * prefs.totalBudget
  · rw [if_pos h1, if_pos h1]
    by_cases h2 : Recommender.trimCondition (lookupD (Recommender.spentByCategoryOf sels) c 0)
        (lookupD prefs.categoryPriorities c 0) (Recommender.totalOf prefs.categoryPriorities)
        prefs.totalBudget
    · rw [if_pos h2, if_pos h2]
      simp
    · rw [if_neg h2, if_neg h2]
      simp
  · rw [if_neg h1, if_neg h1]
    by_cases h2 : Recommender.trimCondition (lookupD (Recommender.spentByCategoryOf sels) c 0)
        (lookupD prefs.categoryPriorities c 0) (Recommender.totalOf prefs.categoryPriorities)
        prefs.totalBudget
    · rw [if_pos h2, if_pos h2]
      simp
    · rw [if_neg h2, if_neg h2]
      simp

theorem foldl_categoryStep (sels : List Recommender.VendorSelection)
    (prefs : Recommender.UserPreferences) :
    ∀ (cats : List Category) (init : List String),
      cats.foldl (Recommender.categoryStep (Recommender.spentByCategoryOf sels)
        prefs.categoryPriorities (Recommender.remainingOf sels prefs) prefs.totalBudget
        (Recommender.totalOf prefs.categoryPriorities)) init =
      init ++ cats.flatMap (Recommender.specCategoryMsgs sels prefs) := by
  intro cats
  induction cats with
  | nil => intro init; simp
  | cons c rest ih =>
    intro init
    rw [List.foldl_cons, categoryStep_append, ih, List.flatMap_cons, List.append_assoc]

/-! ### Claim C6 -/

/-- C6 counterexample: with priorities a=2, b=3 and totalBudget 100, the
normalized expected share of `a` is 2/5 × 100 = 40, and the spend of 30
is NOT below 50% of it (20), yet the code emits the enhance message for
`a` because its threshold is `0.5 × priority × totalBudget` = 100, not
50% of the priority-weighted expected share. -/
theorem recommender_threshold_cx :
    Recommender.enhanceMsg "a" ∈
      Recommender.generateBudgetRecommendations [⟨"a", 30, none⟩]
        ⟨[("a", 2), ("b", 3)], 100⟩ ∧
    ¬((30 : ℚ) < 0.5 * (2 / (2 + 3) * 100)) := by
  constructor
  · norm_num +decide [Recommender.generateBudgetRecommendations,
      Recommender.spentByCategoryOf, Recommender.totalOf, Recommender.sortedCategories,
      Recommender.categoryStep, Recommender.trimCondition, setVal, lookup?, lookupD,
      List.insertionSort, List.orderedInsert, Option.isSome, Option.getD, List.foldl,
      List.filter, List.map, List.headD, List.getLastD, keysOf]
  · norm_num

/-- C6 as amended: the priority recommender iterates the priority
categories in descending priority order (a stable sort of the priority
keys) and, for each, emits the enhance message exactly when the priority
is positive, money remains and spend is below 50% of
`priority × totalBudget` (the raw priority weight, not the normalized
expected share), then the trim message exactly when spend exceeds 120%
of the normalized expected share `priority / Σpriorities × totalBudget`
(with JS sign semantics when the weights sum to zero), and closes with
the splurge suggestion naming the highest-priority category when money
remains, else the economize suggestion naming the lowest-priority one. -/
theorem recommender_structure_amended :
    ∀ (sels : List Recommender.VendorSelection) (prefs : Recommender.UserPreferences),
      Recommender.generateBudgetRecommendations sels prefs =
        Recommender.specOpeningMsgs sels prefs ++
        (Recommender.sortedCategories prefs.categoryPriorities).flatMap
          (Recommender.specCategoryMsgs sels prefs) ++
        [Recommender.specClosingMsg sels prefs] ∧
      (Recommender.sortedCategories prefs.categoryPriorities).Pairwise
        (fun a b =>
          lookupD prefs.categoryPriorities b 0 ≤ lookupD prefs.categoryPriorities a 0) ∧
      (Recommender.sortedCategories prefs.categoryPriorities).Perm
        (prefs.categoryPriorities.map Prod.fst) := by
  intro sels prefs
  refine ⟨?_, ?_, ?_⟩
  · simp only [Recommender.generateBudgetRecommendations]
    rw [show prefs.totalBudget - Recommender.totalOf (Recommender.spentByCategoryOf sels) =
      Recommender.remainingOf sels prefs from rfl]
    rw [foldl_categoryStep]
    simp only [Recommender.specOpeningMsgs, Recommender.specClosingMsg]
    by_cases h : 0 < Recommender.remainingOf sels prefs
    · simp [h, List.append_assoc]
    · simp [h, List.append_assoc]
  · haveI htot : IsTotal Category
        (fun a b =>
          lookupD prefs.categoryPriorities b 0 ≤ lookupD prefs.categoryPriorities a 0) :=
      ⟨fun a b => le_total (lookupD prefs.categoryPriorities b 0)
        (lookupD prefs.categoryPriorities a 0)⟩
    haveI htrans : IsTrans Category
        (fun a b =>
          lookupD prefs.categoryPriorities b 0 ≤ lookupD prefs.categoryPriorities a 0) :=
      ⟨fun _ _ _ hab hbc => le_trans hbc hab⟩
    exact List.sorted_insertionSort _ _
  · exact List.perm_insertionSort _ _

/-! ### Claim C9 -/

/-- C9: the priority recommender is a total function — it always returns
a nonempty (defined) recommendation list, the closing suggestion being
appended on every path; in particular priority weights summing to zero do
not raise (JS division by zero yields Infinity/NaN whose comparisons are
false) and produce the defined output below. -/
theorem recommender_total_nonempty :
    (∀ (sels : List Recommender.VendorSelection) (prefs : Recommender.UserPreferences),
      0 < (Recommender.generateBudgetRecommendations sels prefs).length) ∧
    Recommender.generateBudgetRecommendations [⟨"a", 10, none⟩]
        ⟨[("a", 0), ("b", 0)], 100⟩ =
      [Recommender.remainingMsg 90, Recommender.splurgeTopMsg "a"] := by
  constructor
  · intro sels prefs
    simp only [Recommender.generateBudgetRecommendations]
    split <;> simp
  · norm_num +decide [Recommender.generateBudgetRecommendations,
      Recommender.spentByCategoryOf, Recommender.totalOf, Recommender.sortedCategories,
      Recommender.categoryStep, Recommender.trimCondition, setVal, lookup?, lookupD,
      List.insertionSort, List.orderedInsert, Option.isSome, Option.getD, List.foldl,
      List.filter, List.map, List.headD, List.getLastD, keysOf]

end Plannerly
